import Mathlib

/-!
Verification of the analytical queries of `src/duck_db.py`
(`in-memory-analytics`).

The program holds one table, `yellow_taxi`, and runs a fixed battery of
SQL queries against it.  We embed the table as a list of `Trip` records
(the columns the analytical queries read) and each query as a Lean
function that follows the SQL text:

* timestamps (`tpep_pickup_datetime`, `tpep_dropoff_datetime`) are
  seconds since the Unix epoch (the CSV stores second-resolution
  date-times);
* numeric columns (`trip_distance`, `fare_amount`, `tip_amount`) are
  exact rationals;
* SQL `NULL` is `Option.none`; SQL `AVG` skips `NULL` inputs and yields
  `NULL` on an empty set of non-`NULL` inputs;
* `GROUP BY` is evaluated as "one result row per distinct key, each row
  aggregating the rows of the table whose key matches".

Division on `ℚ` is total, so "no error is raised" by arithmetic edge
cases; the interesting content of the divide-by-zero guards is which
rows contribute to an aggregate, which the embedding tracks exactly.
-/

/-- A row of the `yellow_taxi` table: the columns read by the analytical
queries of `duck_db.py`. -/
structure Trip where
  tpep_pickup_datetime : Nat
  tpep_dropoff_datetime : Nat
  trip_distance : ℚ
  fare_amount : ℚ
  tip_amount : ℚ
  payment_type : Int
deriving DecidableEq

/-- `EXTRACT(HOUR FROM t)` for an epoch-seconds timestamp. -/
def hourOf (t : Nat) : Nat := t / 3600 % 24

/-- Day-of-month `EXTRACT(DAY FROM t)` for an epoch-seconds timestamp,
computed on the proleptic Gregorian calendar (civil-from-days). -/
def civilDay (t : Nat) : Nat :=
  let z := t / 86400 + 719468
  let doe := z % 146097
  let yoe := (doe - doe / 1460 + doe / 36524 - doe / 146096) / 365
  let doy := doe - (365 * yoe + yoe / 4 - yoe / 100)
  let mp := (5 * doy + 2) / 153
  doy - (153 * mp + 2) / 5 + 1

/-- `DAYNAME(t)` for an epoch-seconds timestamp; day 0 of the epoch
(1970-01-01) was a Thursday. -/
def dayNameOf (t : Nat) : String :=
  ["Sunday", "Monday", "Tuesday", "Wednesday", "Thursday", "Friday",
   "Saturday"].getD ((t / 86400 + 4) % 7) "Sunday"

/-- SQL `NULLIF(x, y)`. -/
def nullif (x y : ℚ) : Option ℚ := if x = y then none else some x

/-- SQL `AVG` over a nullable column: `NULL` entries are skipped, and the
average of an empty set of non-`NULL` values is `NULL`. -/
def sqlAvg (vals : List (Option ℚ)) : Option ℚ :=
  let xs := vals.filterMap id
  if xs.length = 0 then none else some (xs.sum / xs.length)

/-- The per-row value `tip_amount / NULLIF(fare_amount, 0)`: `NULL`
whenever the fare (the denominator) is zero. -/
def tipOverFare (r : Trip) : Option ℚ :=
  (nullif r.fare_amount 0).map (fun f => r.tip_amount / f)

/-- One result row of the trips-by-hour query of
`analyze_trips_by_hour`. -/
structure HourRow where
  hour_of_day : Nat
  trip_count : Nat
  avg_distance : Option ℚ
  avg_fare : Option ℚ
  avg_tip : Option ℚ
  avg_tip_percentage : Option ℚ
deriving DecidableEq

/-- The group of rows whose pickup hour is `h`
(`GROUP BY hour_of_day`). -/
def hourGroup (rows : List Trip) (h : Nat) : List Trip :=
  rows.filter (fun r => decide (hourOf r.tpep_pickup_datetime = h))

/-- The aggregates of the trips-by-hour query for the hour group `h`:
`COUNT(*)`, `AVG(trip_distance)`, `AVG(fare_amount)`, `AVG(tip_amount)`
and `AVG(tip_amount / NULLIF(fare_amount, 0)) * 100`. -/
def hourStats (rows : List Trip) (h : Nat) : HourRow :=
  let g := hourGroup rows h
  { hour_of_day := h
    trip_count := g.length
    avg_distance := sqlAvg (g.map (fun r => some r.trip_distance))
    avg_fare := sqlAvg (g.map (fun r => some r.fare_amount))
    avg_tip := sqlAvg (g.map (fun r => some r.tip_amount))
    avg_tip_percentage := (sqlAvg (g.map tipOverFare)).map (fun q => q * 100) }

/-- The trips-by-hour query of `analyze_trips_by_hour`: one row per
distinct pickup hour, `ORDER BY hour_of_day`. -/
def analyze_trips_by_hour (rows : List Trip) : List HourRow :=
  (List.insertionSort (· ≤ ·)
      ((rows.map (fun r => hourOf r.tpep_pickup_datetime)).dedup)).map
    (hourStats rows)

/-- The `CASE payment_type ... END` description column of
`analyze_payment_methods`. -/
def paymentDescOf (k : Int) : String :=
  if k = 1 then "Credit card"
  else if k = 2 then "Cash"
  else if k = 3 then "No charge"
  else if k = 4 then "Dispute"
  else if k = 5 then "Unknown"
  else if k = 6 then "Voided"
  else "Other"

/-- One result row of the payment-methods query of
`analyze_payment_methods`. -/
structure PayRow where
  payment_type : Int
  payment_desc : String
  trip_count : Nat
  avg_fare : Option ℚ
  avg_tip : Option ℚ
  total_tips : ℚ
  avg_tip_percentage : Option ℚ
deriving DecidableEq

/-- The group of rows with payment type `k` (`GROUP BY payment_type`;
grouping also by `payment_desc` adds nothing, since the description is a
function of `payment_type`). -/
def paymentGroup (rows : List Trip) (k : Int) : List Trip :=
  rows.filter (fun r => decide (r.payment_type = k))

/-- The aggregates of the payment-methods query for the payment type
`k`: `COUNT(*)`, `AVG(fare_amount)`, `AVG(tip_amount)`,
`SUM(tip_amount)` and `AVG(tip_amount / NULLIF(fare_amount, 0)) * 100`.
(`SUM` over the empty group is rendered as `0`; the query only
materialises non-empty groups.) -/
def paymentRow (rows : List Trip) (k : Int) : PayRow :=
  let g := paymentGroup rows k
  { payment_type := k
    payment_desc := paymentDescOf k
    trip_count := g.length
    avg_fare := sqlAvg (g.map (fun r => some r.fare_amount))
    avg_tip := sqlAvg (g.map (fun r => some r.tip_amount))
    total_tips := (g.map (fun r => r.tip_amount)).sum
    avg_tip_percentage := (sqlAvg (g.map tipOverFare)).map (fun q => q * 100) }

/-- The payment-methods query of `analyze_payment_methods`: one row per
distinct payment type, `ORDER BY trip_count DESC`. -/
def analyze_payment_methods (rows : List Trip) : List PayRow :=
  (List.insertionSort
      (fun k1 k2 =>
        (paymentRow rows k2).trip_count ≤ (paymentRow rows k1).trip_count)
      ((rows.map (fun r => r.payment_type)).dedup)).map
    (paymentRow rows)

/-- `AVG` over a column with no `NULL`s is the plain average. -/
theorem sqlAvg_map_some (f : Trip → ℚ) (g : List Trip) :
    sqlAvg (g.map (fun r => some (f r))) =
      if g.length = 0 then none else some ((g.map f).sum / g.length) := by
  have h : (g.map (fun r => some (f r))).filterMap id = g.map f := by
    rw [show (fun r => some (f r)) = some ∘ f from rfl, List.filterMap_map]
    simp [List.filterMap_eq_map]
  simp only [sqlAvg, h, List.length_map]

/-- The non-`NULL` entries of the `tip_amount / NULLIF(fare_amount, 0)`
column are exactly the `tip/fare` values of the rows with nonzero
fare. -/
theorem filterMap_tipOverFare (g : List Trip) :
    g.filterMap tipOverFare =
      (g.filter (fun r => decide (r.fare_amount ≠ 0))).map
        (fun r => r.tip_amount / r.fare_amount) := by
  induction g with
  | nil => rfl
  | cons r g ih =>
    by_cases hf : r.fare_amount = 0 <;>
      simp [List.filterMap_cons, List.filter_cons, tipOverFare, nullif, hf, ih]

/-- The ratio-style average `AVG(tip_amount / NULLIF(fare_amount, 0))`
over a group equals the plain average of `tip/fare` over the rows of the
group with nonzero fare (and is `NULL` when there is no such row). -/
theorem sqlAvg_tipOverFare (g : List Trip) :
    sqlAvg (g.map tipOverFare) =
      (if (g.filter (fun r => decide (r.fare_amount ≠ 0))).length = 0 then none
       else some
        (((g.filter (fun r => decide (r.fare_amount ≠ 0))).map
            (fun r => r.tip_amount / r.fare_amount)).sum /
          (g.filter (fun r => decide (r.fare_amount ≠ 0))).length)) := by
  have h : (g.map tipOverFare).filterMap id = g.filterMap tipOverFare := by
    rw [List.filterMap_map]; rfl
  simp only [sqlAvg, h, filterMap_tipOverFare, List.length_map]

/-- Claim C1: in the grouped ratio-style averages
(`AVG(tip_amount / NULLIF(fare_amount, 0)) * 100` of
`analyze_trips_by_hour` and `analyze_payment_methods`), every row whose
fare (the denominator) is zero is excluded from the ratio average — the
aggregate equals the average of `tip/fare` taken over only the rows of
the group with nonzero fare, and is `NULL` (not `0`) when the group has
no such row — while `COUNT(*)` still counts every row of the group,
zero-fare rows included.  No error is raised: every field of the result
row is a defined value. -/
theorem ratio_guard_excludes_zero_fare (rows : List Trip) (h : Nat) (k : Int) :
    (hourStats rows h).trip_count = (hourGroup rows h).length ∧
    (hourStats rows h).avg_tip_percentage =
      (if ((hourGroup rows h).filter
            (fun r => decide (r.fare_amount ≠ 0))).length = 0 then none
       else some
        ((((hourGroup rows h).filter (fun r => decide (r.fare_amount ≠ 0))).map
            (fun r => r.tip_amount / r.fare_amount)).sum /
          ((hourGroup rows h).filter
            (fun r => decide (r.fare_amount ≠ 0))).length * 100)) ∧
    (paymentRow rows k).trip_count = (paymentGroup rows k).length ∧
    (paymentRow rows k).avg_tip_percentage =
      (if ((paymentGroup rows k).filter
            (fun r => decide (r.fare_amount ≠ 0))).length = 0 then none
       else some
        ((((paymentGroup rows k).filter
              (fun r => decide (r.fare_amount ≠ 0))).map
            (fun r => r.tip_amount / r.fare_amount)).sum /
          ((paymentGroup rows k).filter
            (fun r => decide (r.fare_amount ≠ 0))).length * 100)) := by
  refine ⟨rfl, ?_, rfl, ?_⟩
  · show (sqlAvg ((hourGroup rows h).map tipOverFare)).map (fun q => q * 100) = _
    rw [sqlAvg_tipOverFare]
    split <;> simp
  · show (sqlAvg ((paymentGroup rows k).map tipOverFare)).map (fun q => q * 100) = _
    rw [sqlAvg_tipOverFare]
    split <;> simp

/-- First synthetic trip: pickup hour 0, fare 10. -/
def t1 : Trip := ⟨0, 600, 1, 10, 1, 1⟩

/-- Second synthetic trip: pickup hour 0, fare 20. -/
def t2 : Trip := ⟨60, 700, 2, 20, 2, 2⟩

/-- Third synthetic trip: pickup hour 13, fare 30. -/
def t3 : Trip := ⟨46800, 47400, 3, 30, 3, 1⟩

/-- The 3-row synthetic table with pickup hours `{0, 0, 13}` and fares
`{10, 20, 30}`. -/
def trips3 : List Trip := [t1, t2, t3]

/-- Claim C3: on the 3-row synthetic table with pickup hours
`{0, 0, 13}` and fares `{10, 20, 30}`, the grouped aggregation by hour
returns exactly two rows: `(hour 0, count 2, avg fare 15)` and
`(hour 13, count 1, avg fare 30)`. -/
theorem three_row_scenario :
    (analyze_trips_by_hour trips3).length = 2 ∧
    (analyze_trips_by_hour trips3).map
        (fun hr => (hr.hour_of_day, hr.trip_count, hr.avg_fare)) =
      [(0, 2, some 15), (13, 1, some 30)] := by
  have hkeys :
      List.insertionSort (· ≤ ·)
        ((trips3.map (fun r => hourOf r.tpep_pickup_datetime)).dedup) =
        [0, 13] := by decide
  have hg0 : hourGroup trips3 0 = [t1, t2] := by decide
  have hg13 : hourGroup trips3 13 = [t3] := by decide
  constructor
  · simp only [analyze_trips_by_hour, hkeys, List.length_map, List.length_cons,
      List.length_nil]
  · simp only [analyze_trips_by_hour, hkeys, List.map_cons, List.map_nil,
      hourStats, hg0, hg13]
    norm_num [t1, t2, t3, sqlAvg, List.filterMap_cons, List.filterMap_nil]

/-- Sums of pointwise sums of naturals split. -/
theorem sum_map_add_nat {κ : Type _} (f g : κ → Nat) (keys : List κ) :
    (keys.map (fun k => f k + g k)).sum = (keys.map f).sum + (keys.map g).sum := by
  induction keys with
  | nil => rfl
  | cons k keys ih => simp [ih]; omega

/-- An indicator summed over a list not containing its support is 0. -/
theorem sum_indicator_of_not_mem {κ : Type _} [DecidableEq κ] (a : κ)
    (keys : List κ) (h : a ∉ keys) :
    (keys.map (fun k => if a = k then 1 else 0)).sum = 0 := by
  induction keys with
  | nil => rfl
  | cons k keys ih =>
    have hak : ¬a = k := fun hak => h (hak ▸ List.mem_cons_self k keys)
    have h' : a ∉ keys := fun h' => h (List.mem_cons_of_mem k h')
    simp [hak, ih h']

/-- An indicator summed over a duplicate-free list containing its support
is 1. -/
theorem sum_indicator_of_mem {κ : Type _} [DecidableEq κ] (a : κ)
    (keys : List κ) (hnd : keys.Nodup) (ha : a ∈ keys) :
    (keys.map (fun k => if a = k then 1 else 0)).sum = 1 := by
  induction keys with
  | nil => exact absurd ha (List.not_mem_nil a)
  | cons k keys ih =>
    rcases List.mem_cons.mp ha with hak | ha'
    · subst hak
      simp [sum_indicator_of_not_mem a keys (List.nodup_cons.mp hnd).1]
    · have hak : ¬a = k := fun hak =>
        (List.nodup_cons.mp hnd).1 (hak ▸ ha')
      simp [hak, ih (List.nodup_cons.mp hnd).2 ha']

/-- Grouping completeness: if `keys` is duplicate-free and covers the
key of every row, the per-key group sizes sum to the number of rows. -/
theorem sum_group_counts {α κ : Type _} [DecidableEq κ] (key : α → κ)
    (keys : List κ) (rows : List α) (hnd : keys.Nodup)
    (hcov : ∀ r ∈ rows, key r ∈ keys) :
    (keys.map
      (fun k => (rows.filter (fun r => decide (key r = k))).length)).sum =
      rows.length := by
  induction rows with
  | nil => simp
  | cons r rows ih =>
    simp only [← List.countP_eq_length_filter] at ih ⊢
    simp only [List.countP_cons, decide_eq_true_eq]
    rw [sum_map_add_nat]
    have h1 := ih (fun s hs => hcov s (List.mem_cons_of_mem r hs))
    have h2 := sum_indicator_of_mem (key r) keys hnd
      (hcov r (List.mem_cons_self r rows))
    simp only [List.length_cons, h1, h2]

/-- A generic `GROUP BY key` evaluator returning `COUNT(*)` per distinct
key (first occurrences kept), covering any grouping expression —
including expressions valued in an `Option` type, where `none` plays the
role of a `NULL` group key. -/
def groupCounts {α κ : Type _} [DecidableEq κ] (key : α → κ)
    (rows : List α) : List (κ × Nat) :=
  (rows.map key).dedup.map
    (fun k => (k, (rows.filter (fun r => decide (key r = k))).length))

/-- The per-group counts of a generic `GROUP BY` sum to the table size. -/
theorem groupCounts_sum {α κ : Type _} [DecidableEq κ] (key : α → κ)
    (rows : List α) :
    ((groupCounts key rows).map Prod.snd).sum = rows.length := by
  have h : ((groupCounts key rows).map Prod.snd) =
      (rows.map key).dedup.map
        (fun k => (rows.filter (fun r => decide (key r = k))).length) := by
    simp [groupCounts, List.map_map, Function.comp]
  rw [h]
  exact sum_group_counts key _ rows (List.nodup_dedup _)
    (fun r hr => List.mem_dedup.mpr (List.mem_map_of_mem key hr))

/-- The hour-of-day-by-day-of-week heat-map query of
`analyze_busy_days_and_times`: `COUNT(*)` grouped by
`(DAYNAME(tpep_pickup_datetime), EXTRACT(HOUR FROM
tpep_pickup_datetime))` over the whole table (no `WHERE` filter; the
`ORDER BY` clause only permutes the result rows and is irrelevant to the
count totals). -/
def hourByDayCounts (rows : List Trip) : List ((String × Nat) × Nat) :=
  groupCounts
    (fun r => (dayNameOf r.tpep_pickup_datetime, hourOf r.tpep_pickup_datetime))
    rows

/-- Claim C4: for every table and every group-by aggregation over the
whole table, the per-group `COUNT(*)` values sum to the total row count:
no row is dropped and none is counted twice.  Stated for the generic
grouping evaluator `groupCounts` (whose key type may be an `Option`
type, so `NULL`-valued group keys are covered: they form their own
group), and instantiated at the two whole-table grouped queries of the
program, `analyze_trips_by_hour` and the day/hour heat map of
`analyze_busy_days_and_times`. -/
theorem group_counts_total :
    (∀ (α κ : Type) (_inst : DecidableEq κ) (key : α → κ) (rows : List α),
      ((groupCounts key rows).map Prod.snd).sum = rows.length) ∧
    (∀ rows : List Trip,
      ((analyze_trips_by_hour rows).map (fun hr => hr.trip_count)).sum =
        rows.length) ∧
    (∀ rows : List Trip,
      ((hourByDayCounts rows).map Prod.snd).sum = rows.length) := by
  refine ⟨fun α κ _inst key rows => groupCounts_sum key rows, ?_, ?_⟩
  · intro rows
    have hperm :
        (List.insertionSort (· ≤ ·)
          ((rows.map (fun r => hourOf r.tpep_pickup_datetime)).dedup)).Perm
          ((rows.map (fun r => hourOf r.tpep_pickup_datetime)).dedup) :=
      List.perm_insertionSort _ _
    have h : ((analyze_trips_by_hour rows).map (fun hr => hr.trip_count)) =
        (List.insertionSort (· ≤ ·)
          ((rows.map (fun r => hourOf r.tpep_pickup_datetime)).dedup)).map
          (fun h =>
            (rows.filter
              (fun r => decide (hourOf r.tpep_pickup_datetime = h))).length) := by
      simp [analyze_trips_by_hour, List.map_map, Function.comp, hourStats,
        hourGroup]
    rw [h]
    exact sum_group_counts (fun r => hourOf r.tpep_pickup_datetime) _ rows
      (hperm.nodup_iff.mpr (List.nodup_dedup _))
      (fun r hr => hperm.mem_iff.mpr
        (List.mem_dedup.mpr (List.mem_map_of_mem _ hr)))
  · intro rows
    exact groupCounts_sum _ rows

/-- Modelled from the spec: the per-group Aggregate Accumulator of the
Grouped-Aggregation Evaluator for the payment-methods query — running
`COUNT(*)`, running sums for `AVG(fare_amount)`, `AVG(tip_amount)` /
`SUM(tip_amount)`, and a separate running count and sum for the
ratio-style aggregate `AVG(tip_amount / NULLIF(fare_amount, 0))` (rows
with zero fare contribute nothing to the latter pair).  The source
delegates spilling to the embedded engine (`SET memory_limit` in `main`)
and contains no accumulator code of its own. -/
structure PayAcc where
  cnt : Nat
  fare_sum : ℚ
  tip_sum : ℚ
  pct_cnt : Nat
  pct_sum : ℚ
deriving DecidableEq

/-- The empty accumulator. -/
def payZero : PayAcc := ⟨0, 0, 0, 0, 0⟩

/-- The contribution of one row to the accumulator of payment type `k`:
zero if the row belongs to another group. -/
def payDelta (k : Int) (r : Trip) : PayAcc :=
  if r.payment_type = k then
    ⟨1, r.fare_amount, r.tip_amount,
     if r.fare_amount = 0 then 0 else 1,
     if r.fare_amount = 0 then 0 else r.tip_amount / r.fare_amount⟩
  else payZero

/-- Modelled from the spec: the associative, commutative merge of
count/sum accumulator state used both for spill-segment merging and for
merging shards. -/
def payAdd (a b : PayAcc) : PayAcc :=
  ⟨a.cnt + b.cnt, a.fare_sum + b.fare_sum, a.tip_sum + b.tip_sum,
   a.pct_cnt + b.pct_cnt, a.pct_sum + b.pct_sum⟩

/-- Modelled from the spec: one pass over a batch of rows building the
accumulator of payment type `k` by per-row updates (the order in which
rows are folded is immaterial, as the merge is commutative). -/
def accumOf (k : Int) (rows : List Trip) : PayAcc :=
  rows.foldr (fun r a => payAdd (payDelta k r) a) payZero

/-- Modelled from the spec: the spill pipeline for one group key.  The
memory ceiling splits the scan into chunks; each chunk is aggregated
in-memory, sealed into a Spill Segment, and at end-of-scan all segments
are merged by `payAdd`.  A ceiling high enough never to spill is the
one-chunk instance. -/
def spillAggregate (k : Int) (chunks : List (List Trip)) : PayAcc :=
  (chunks.map (accumOf k)).foldr payAdd payZero

/-- Finalizing an accumulator into the result row of the
payment-methods query: `AVG = sum / count`, `NULL` on an empty count. -/
def finalizePay (k : Int) (a : PayAcc) : PayRow :=
  { payment_type := k
    payment_desc := paymentDescOf k
    trip_count := a.cnt
    avg_fare := if a.cnt = 0 then none else some (a.fare_sum / a.cnt)
    avg_tip := if a.cnt = 0 then none else some (a.tip_sum / a.cnt)
    total_tips := a.tip_sum
    avg_tip_percentage :=
      if a.pct_cnt = 0 then none else some (a.pct_sum / a.pct_cnt * 100) }

/-- `payZero` is a left identity of the merge. -/
theorem payZero_add (a : PayAcc) : payAdd payZero a = a := by
  cases a; simp [payAdd, payZero]

/-- `payAdd` is associative. -/
theorem payAdd_assoc (a b c : PayAcc) :
    payAdd (payAdd a b) c = payAdd a (payAdd b c) := by
  cases a; cases b; cases c; simp [payAdd]; refine ⟨?_, ?_, ?_, ?_, ?_⟩ <;> ring

/-- Folding row updates from any base accumulator is merging the batch
accumulator into the base. -/
theorem foldr_payAdd_from (k : Int) (rows : List Trip) (b : PayAcc) :
    rows.foldr (fun r a => payAdd (payDelta k r) a) b =
      payAdd (accumOf k rows) b := by
  induction rows with
  | nil => simp [accumOf, payZero_add]
  | cons r rows ih => simp [accumOf, List.foldr_cons, ih, payAdd_assoc]

/-- Scanning a concatenation of batches merges their accumulators. -/
theorem accumOf_append (k : Int) (l1 l2 : List Trip) :
    accumOf k (l1 ++ l2) = payAdd (accumOf k l1) (accumOf k l2) := by
  rw [accumOf, List.foldr_append, ← accumOf, foldr_payAdd_from]

/-- The accumulator built over a batch records exactly the group size,
the group's fare and tip sums, and the size and `tip/fare` sum of the
zero-fare-guarded subgroup. -/
theorem accumOf_eq (k : Int) (rows : List Trip) :
    accumOf k rows =
      ⟨(paymentGroup rows k).length,
       ((paymentGroup rows k).map (fun r => r.fare_amount)).sum,
       ((paymentGroup rows k).map (fun r => r.tip_amount)).sum,
       ((paymentGroup rows k).filter
          (fun r => decide (r.fare_amount ≠ 0))).length,
       (((paymentGroup rows k).filter (fun r => decide (r.fare_amount ≠ 0))).map
          (fun r => r.tip_amount / r.fare_amount)).sum⟩ := by
  induction rows with
  | nil => rfl
  | cons r rows ih =>
    have hcons : accumOf k (r :: rows) = payAdd (payDelta k r) (accumOf k rows) :=
      rfl
    rw [hcons, ih]
    by_cases hk : r.payment_type = k
    · by_cases hf : r.fare_amount = 0 <;>
        (simp [payAdd, payDelta, payZero, paymentGroup, List.filter_cons, hk,
          hf] <;> omega)
    · simp [payAdd, payDelta, payZero, paymentGroup, List.filter_cons, hk]

/-- Finalizing the single-pass accumulator of a table reproduces the
payment-methods result row computed by the SQL semantics. -/
theorem finalize_accumOf (k : Int) (rows : List Trip) :
    finalizePay k (accumOf k rows) = paymentRow rows k := by
  rw [accumOf_eq]
  have h1 := sqlAvg_map_some (fun r => r.fare_amount) (paymentGroup rows k)
  have h2 := sqlAvg_map_some (fun r => r.tip_amount) (paymentGroup rows k)
  have h3 := sqlAvg_tipOverFare (paymentGroup rows k)
  simp only [paymentRow, finalizePay, h1, h2, h3, PayRow.mk.injEq,
    List.length_map]
  refine ⟨trivial, trivial, trivial, trivial, trivial, trivial, ?_⟩
  split <;> simp

/-- Claim C2 (spec-modelled spilling: the source configures the memory
ceiling of its embedded engine but contains no spill code, so the
Spill-Segment pipeline of spec §4.4/§4.6 is modelled here): for every
table and every way the memory ceiling chops the scan into spilled
chunks, merging the per-chunk accumulator segments and finalizing yields
exactly the result row that the direct (no-spill) evaluation of the
payment-methods query computes on the concatenated table — for every
group key.  In particular a ceiling that forces spills and a ceiling
that avoids them (one single chunk) produce identical result rows, so
query results do not depend on the configured memory limit. -/
theorem spill_merge_eq_direct (chunks : List (List Trip)) (k : Int) :
    finalizePay k (spillAggregate k chunks) = paymentRow chunks.flatten k := by
  have h : spillAggregate k chunks = accumOf k chunks.flatten := by
    induction chunks with
    | nil => rfl
    | cons c chunks ih =>
      show payAdd (accumOf k c) (spillAggregate k chunks) =
        accumOf k ((c :: chunks).flatten)
      rw [ih, List.flatten_cons, accumOf_append]
  rw [h, finalize_accumOf]

/-- The SQL frame `ROWS BETWEEN r PRECEDING AND r FOLLOWING` at row `i`
of the ordered column `xs`: the contiguous slice starting at row
`i - r` (clipped at row 0 by natural subtraction) of frame size
`(i + r) - (i - r) + 1` (clipped at the end of the column by `take`).
Never zero-padded: only existing rows enter the frame. -/
def movingWindow (r i : Nat) (xs : List ℚ) : List ℚ :=
  (xs.drop (i - r)).take (i + r + 1 - (i - r))

/-- The moving-average window function of `test_large_memory_processing`
(`AVG(fare_amount) OVER (ORDER BY tpep_pickup_datetime ROWS BETWEEN
10000 PRECEDING AND 10000 FOLLOWING)`, for a general radius `r`): for
each row index of the ordered column, the average of the frame at that
row. -/
def movingAvg (r : Nat) (xs : List ℚ) : List ℚ :=
  (List.range xs.length).map
    (fun i => (movingWindow r i xs).sum / (movingWindow r i xs).length)

/-- Claim C5: for a table ordered by the ordering column, the centered
moving average at row `i` is the average of the value column over
exactly the rows with indices in `[i - r, i + r] ∩ [0, N - 1]` — the
frame is clipped at the dataset boundaries (it starts at row `i - r`,
clipped at 0, and holds `min (i + r + 1) N - (i - r)` consecutive rows,
i.e. rows `i - r, …, min (i + r) (N - 1)`), never zero-padded. -/
theorem moving_avg_window (r : Nat) (xs : List ℚ) (i : Nat)
    (hi : i < xs.length) :
    (movingAvg r xs).getD i 0 =
      (movingWindow r i xs).sum / (movingWindow r i xs).length ∧
    movingWindow r i xs =
      (List.range' (i - r) (min (i + r + 1) xs.length - (i - r))).map
        (fun j => xs.getD j 0) := by
  constructor
  · have hlen : i < (movingAvg r xs).length := by
      simpa [movingAvg] using hi
    rw [List.getD_eq_getElem _ _ hlen]
    simp [movingAvg]
  · have hlen : (movingWindow r i xs).length =
        min (i + r + 1) xs.length - (i - r) := by
      simp only [movingWindow, List.length_take, List.length_drop]
      omega
    refine List.ext_getElem ?_ ?_
    · simpa [hlen] using (List.length_range' _ _ _).symm
    · intro n h1 h2
      have hn : n < min (i + r + 1) xs.length - (i - r) := by
        simpa [hlen] using h1
      have hb : i - r + n < xs.length := by omega
      rw [List.getElem_map]
      rw [List.getElem_range']
      show (movingWindow r i xs)[n] = xs.getD (i - r + 1 * n) 0
      have : (movingWindow r i xs)[n] = xs[i - r + n] := by
        simp only [movingWindow]
        rw [List.getElem_take, List.getElem_drop]
      rw [this, List.getD_eq_getElem _ _ (by omega : i - r + 1 * n < xs.length)]
      congr 1
      omega

/-- Witness for C5: with 5 rows and radius 2, row 0's frame is exactly
rows 0..2 (clipped, not zero-padded), and its moving average is the
average of those three rows. -/
theorem moving_avg_window_witness :
    (movingAvg 2 [1, 2, 3, 4, 5]).getD 0 0 = 2 ∧
    movingWindow 2 0 [1, 2, 3, 4, 5] = [1, 2, 3] := by
  have h := moving_avg_window 2 [1, 2, 3, 4, 5] 0 (by decide)
  have hw : movingWindow 2 0 [1, 2, 3, 4, 5] = [1, 2, 3] := rfl
  refine ⟨?_, hw⟩
  rw [h.1, hw]
  norm_num [List.sum_cons, List.sum_nil]

/-- The `WHERE` filter of the busy-days query of
`analyze_busy_days_and_times`: dropoff strictly after pickup, positive
trip distance, and trip duration (`EXTRACT(EPOCH FROM (dropoff -
pickup))`, in seconds) greater than 60. -/
def busyDayFilter (r : Trip) : Bool :=
  decide (r.tpep_pickup_datetime < r.tpep_dropoff_datetime) &&
  decide ((0 : ℚ) < r.trip_distance) &&
  decide (60 < r.tpep_dropoff_datetime - r.tpep_pickup_datetime)

/-- The trip duration in hours,
`EXTRACT(EPOCH FROM (tpep_dropoff_datetime - tpep_pickup_datetime)) / 3600`:
the denominator of the average-speed expression. -/
def tripDurationHours (r : Trip) : ℚ :=
  ((r.tpep_dropoff_datetime - r.tpep_pickup_datetime : Nat) : ℚ) / 3600

/-- The per-row average-speed expression
`trip_distance / (EXTRACT(EPOCH FROM (dropoff - pickup)) / 3600)` of the
busy-days query. -/
def avgSpeedExpr (r : Trip) : ℚ := r.trip_distance / tripDurationHours r

/-- Claim C10: every row that passes the busy-days `WHERE` filter has a
strictly positive (in particular nonzero) speed denominator
`duration / 3600`, so the division in the average-speed aggregate is
well-defined for every contributing row. -/
theorem speed_denominator_pos (r : Trip) (h : busyDayFilter r = true) :
    0 < tripDurationHours r ∧ tripDurationHours r ≠ 0 := by
  have hdur : 60 < r.tpep_dropoff_datetime - r.tpep_pickup_datetime := by
    have := h
    simp only [busyDayFilter, Bool.and_eq_true, decide_eq_true_eq] at this
    exact this.2
  have hpos : (0 : ℚ) <
      ((r.tpep_dropoff_datetime - r.tpep_pickup_datetime : Nat) : ℚ) := by
    exact_mod_cast (by omega :
      0 < r.tpep_dropoff_datetime - r.tpep_pickup_datetime)
  have hq : 0 < tripDurationHours r := by
    rw [tripDurationHours]
    exact div_pos hpos (by norm_num)
  exact ⟨hq, ne_of_gt hq⟩

/-- A concrete trip passing the busy-days filter: 100-second trip of
distance 1. -/
def tripBd : Trip := ⟨0, 100, 1, 10, 1, 1⟩

/-- Witness for C10: the filter hypothesis is satisfiable and the
denominator of the speed expression is positive there. -/
theorem speed_denominator_pos_witness :
    0 < tripDurationHours tripBd ∧ tripDurationHours tripBd ≠ 0 :=
  speed_denominator_pos tripBd (by decide)

/-- The outcome of `load_csv_to_duckdb`: the resulting `yellow_taxi`
table state of the database plus the returned `(success, row_count)`
pair (the returned wall-clock duration is not modelled). -/
structure LoadResult where
  table : Option (List Trip)
  success : Bool
  row_count : Nat
deriving DecidableEq

/-- `load_csv_to_duckdb`: the function first executes
`DROP TABLE IF EXISTS yellow_taxi` (each statement is committed as it
executes), then attempts `CREATE TABLE yellow_taxi AS SELECT * FROM
read_csv_auto(...)`.  `prev` is the `yellow_taxi` state already in the
database file; `source` is the parsed content of the CSV, `none` when
the source cannot be opened or processed (`read_csv_auto` raises, the
`except` branch returns `(False, duration, 0)`). -/
def load_csv_to_duckdb (prev : Option (List Trip)) (source : Option (List Trip)) :
    LoadResult :=
  match prev, source with
  | _, some rows => ⟨some rows, true, rows.length⟩
  | _, none => ⟨none, false, 0⟩

/-- Counterexample to C8 as stated: a failing load run on a database
that previously held a table reports row count 0, but does NOT leave
previously existing table state intact — the old `yellow_taxi` table
was dropped before the load was attempted, so the final state holds no
table although the prior state held one. -/
theorem load_failure_drops_existing_table :
    (load_csv_to_duckdb (some [t1]) none).success = false ∧
    (load_csv_to_duckdb (some [t1]) none).row_count = 0 ∧
    (load_csv_to_duckdb (some [t1]) none).table = none ∧
    (some [t1] : Option (List Trip)) ≠ none := by
  refine ⟨rfl, rfl, rfl, ?_⟩
  simp

/-- Claim C8, amended: a failed load is reported with `success = false`
and row count 0, and leaves no partial new table; but it does not
preserve previously existing table state — whatever `yellow_taxi` table
existed before the run has already been dropped, so the final table
state is `none` regardless of the prior state. -/
theorem load_failure_reports_zero (prev : Option (List Trip)) :
    (load_csv_to_duckdb prev none).success = false ∧
    (load_csv_to_duckdb prev none).row_count = 0 ∧
    (load_csv_to_duckdb prev none).table = none :=
  ⟨rfl, rfl, rfl⟩

/-- `float(tip_pct) if tip_pct is not None else 0` in
`analyze_trips_by_hour`: a `NULL` tip-percentage aggregate is reported
as the number `0`. -/
def reported_tip_percentage (tip_pct : Option ℚ) : ℚ := tip_pct.getD 0

/-- The payment-methods entry of the analytics block of `main`: when
`analyze_payment_methods` raises, `main` catches the exception and
substitutes the empty dict (`payment_stats = {}`); otherwise the
analysis result is stored. -/
def main_payment_stats (rows : List Trip) (payment_analysis_raises : Bool) :
    List PayRow :=
  if payment_analysis_raises then [] else analyze_payment_methods rows

/-- Counterexample to C9 as stated: a failed payment analysis on a
non-empty table is reported as the same empty value as a successful
payment analysis of an empty table, so failure and absence of data are
not distinguishable in the returned value; moreover a `NULL`
tip-percentage aggregate is reported as the number `0`, identical to a
true average of `0`. -/
theorem empty_result_ambiguity :
    main_payment_stats [t1] true = main_payment_stats [] false ∧
    analyze_payment_methods [t1] ≠ [] ∧
    reported_tip_percentage none = reported_tip_percentage (some 0) := by
  refine ⟨rfl, ?_, rfl⟩
  simp [analyze_payment_methods, t1]

/-- Claim C9, amended: only the ingestion path (`load_csv_to_duckdb`,
and likewise the large-memory test) returns an explicit success flag;
the analysis operations return bare data, a failed analysis is reported
by `main` as an empty result (`{}` / `[]`) indistinguishable from an
empty-data success, and `analyze_trips_by_hour` reports a `NULL`
tip-percentage aggregate as `0`. -/
theorem explicit_flag_for_ingestion_only :
    (∀ (prev : Option (List Trip)) (rows : List Trip),
      (load_csv_to_duckdb prev (some rows)).success = true) ∧
    (∀ prev : Option (List Trip),
      (load_csv_to_duckdb prev none).success = false) ∧
    (∀ rows : List Trip, main_payment_stats rows true = []) ∧
    reported_tip_percentage none = 0 :=
  ⟨fun _ _ => rfl, fun _ => rfl, fun _ => rfl, rfl⟩

/-- Strict monotonicity of `countP` under a pointwise-stronger predicate
with a strict witness in the list. -/
theorem countP_lt_countP {α : Type _} (l : List α) (p q : α → Bool)
    (hpq : ∀ x ∈ l, p x = true → q x = true) (x : α) (hx : x ∈ l)
    (hqx : q x = true) (hpx : p x = false) :
    l.countP p < l.countP q := by
  induction l with
  | nil => exact absurd hx (List.not_mem_nil x)
  | cons a l ih =>
    have hpq' : ∀ y ∈ l, p y = true → q y = true :=
      fun y hy => hpq y (List.mem_cons_of_mem a hy)
    rcases List.mem_cons.mp hx with hxa | hxl
    · have hmono : l.countP p ≤ l.countP q := List.countP_mono_left hpq'
      subst hxa
      simp only [List.countP_cons, hpx, hqx]
      simp only [Bool.false_eq_true, if_false, if_true]
      omega
    · have hlt := ih hpq' hxl
      have hha : (if p a = true then 1 else 0) ≤ (if q a = true then 1 else 0) := by
        by_cases hpa : p a = true
        · simp [hpa, hpq a (List.mem_cons_self a l) hpa]
        · simp [hpa]
      simp only [List.countP_cons]
      omega

/-- The partition key `EXTRACT(DAY FROM tpep_pickup_datetime)` of the
`day_fare_rank` window function in `test_large_memory_processing`. -/
def tripDayKey (r : Trip) : Nat := civilDay r.tpep_pickup_datetime

/-- The partition (`PARTITION BY EXTRACT(DAY FROM
tpep_pickup_datetime)`) that row `r` belongs to. -/
def dayPartition (rows : List Trip) (r : Trip) : List Trip :=
  rows.filter (fun s => decide (tripDayKey s = tripDayKey r))

/-- SQL `RANK() OVER (PARTITION BY day ORDER BY fare_amount DESC)`: the
rank of a row is 1 plus the number of rows of its partition with
strictly greater fare. -/
def rankIn (rows : List Trip) (r : Trip) : Nat :=
  1 + ((dayPartition rows r).filter
    (fun s => decide (r.fare_amount < s.fare_amount))).length

/-- The `day_fare_rank` column of the `trip_ranks` CTE: each row paired
with its rank. -/
def trip_ranks (rows : List Trip) : List (Trip × Nat) :=
  rows.map (fun r => (r, rankIn rows r))

/-- Two distinct trips on the same day with equal fares (differing
tips). -/
def tA : Trip := ⟨0, 100, 1, 5, 1, 1⟩

/-- See `tA`. -/
def tB : Trip := ⟨0, 100, 1, 5, 2, 1⟩

/-- Counterexample to C6 as stated: two distinct rows of the same
partition with equal metric (fare) both receive rank 1 under `RANK()`,
so rows of a partition do not all receive distinct ranks and ties are
not broken by scan order. -/
theorem rank_ties_counterexample :
    tA ≠ tB ∧ tripDayKey tA = tripDayKey tB ∧
    trip_ranks [tA, tB] = [(tA, 1), (tB, 1)] ∧
    rankIn [tA, tB] tA = rankIn [tA, tB] tB := by
  refine ⟨by decide, by decide, by decide, by decide⟩

/-- Claim C6, amended: the partitioned rank operation partitions rows by
day, orders each partition by fare descending, and assigns `RANK()`
semantics — each row's rank is 1 plus the number of rows of its
partition with strictly greater fare, so ranks lie in `1..k` (`k` the
partition size), a strictly greater fare means a strictly smaller rank,
and rows of a partition with equal fares share the same rank (rather
than having ties broken by scan order). -/
theorem rank_desc_shared_ties (rows : List Trip) (r s : Trip)
    (hr : r ∈ rows) (hs : s ∈ rows) (hk : tripDayKey s = tripDayKey r) :
    (1 ≤ rankIn rows r ∧ rankIn rows r ≤ (dayPartition rows r).length) ∧
    (r.fare_amount < s.fare_amount → rankIn rows s < rankIn rows r) ∧
    (r.fare_amount = s.fare_amount → rankIn rows s = rankIn rows r) := by
  have hrP : r ∈ dayPartition rows r := List.mem_filter.mpr ⟨hr, by simp⟩
  have hsP : s ∈ dayPartition rows r := List.mem_filter.mpr ⟨hs, by simp [hk]⟩
  have hpart : dayPartition rows s = dayPartition rows r := by
    simp only [dayPartition, hk]
  refine ⟨⟨?_, ?_⟩, ?_, ?_⟩
  · simp only [rankIn]; omega
  · have hlt : ((dayPartition rows r).filter
        (fun t => decide (r.fare_amount < t.fare_amount))).length <
        (dayPartition rows r).length :=
      List.length_filter_lt_length_iff_exists.mpr ⟨r, hrP, by simp⟩
    simp only [rankIn]; omega
  · intro hfare
    have hcnt : ((dayPartition rows r).filter
          (fun t => decide (s.fare_amount < t.fare_amount))).length <
        ((dayPartition rows r).filter
          (fun t => decide (r.fare_amount < t.fare_amount))).length := by
      rw [← List.countP_eq_length_filter, ← List.countP_eq_length_filter]
      refine countP_lt_countP _ _ _ ?_ s hsP (by simp [hfare]) (by simp)
      intro x _ hpx
      simp only [decide_eq_true_eq] at hpx ⊢
      exact lt_trans hfare hpx
    simp only [rankIn, hpart]
    omega
  · intro hfare
    simp only [rankIn, hpart, ← hfare]

/-- Witness for C6's amended theorem: on a two-row table on one day with
fares 5 and 3, the higher fare gets the strictly smaller rank and both
ranks lie within the partition size. -/
theorem rank_desc_shared_ties_witness :
    (1 ≤ rankIn [tA, tripBd] tA ∧
      rankIn [tA, tripBd] tA ≤ (dayPartition [tA, tripBd] tA).length) ∧
    rankIn [tA, tripBd] tripBd < rankIn [tA, tripBd] tA := by
  have h := rank_desc_shared_ties [tA, tripBd] tA tripBd
    (by decide) (by decide) (by decide)
  exact ⟨h.1, h.2.1 (by decide)⟩

/-- SQL `NTILE(T)` over `N` ordered rows: the bucket (1-based) of the
row at 0-based position `i` of the ordering.  The first `N % T` buckets
hold `N / T + 1` rows and the remaining buckets hold `N / T` rows. -/
def ntileBucket (T N i : Nat) : Nat :=
  if i < N % T * (N / T + 1) then i / (N / T + 1) + 1
  else N % T + (i - N % T * (N / T + 1)) / (N / T) + 1

/-- The 0-based position at which `NTILE` bucket `j + 1` starts. -/
def ntileStart (T N j : Nat) : Nat := j * (N / T) + min j (N % T)

/-- `ntileStart` is monotone in the bucket index. -/
theorem ntileStart_mono (T N : Nat) {j j' : Nat} (h : j ≤ j') :
    ntileStart T N j ≤ ntileStart T N j' :=
  Nat.add_le_add (Nat.mul_le_mul h (le_refl _)) (min_le_min h (le_refl _))

/-- Bucket `T` ends exactly at position `N`. -/
theorem ntileStart_top (T N : Nat) (hT : 0 < T) : ntileStart T N T = N := by
  have hr : N % T ≤ T := le_of_lt (Nat.mod_lt N hT)
  simp only [ntileStart, min_eq_right hr]
  exact Nat.div_add_mod N T

/-- A position inside the span of bucket `j + 1` is assigned bucket
`j + 1`. -/
theorem ntileBucket_of_interval (T N j i : Nat)
    (h1 : ntileStart T N j ≤ i) (h2 : i < ntileStart T N (j + 1)) :
    ntileBucket T N i = j + 1 := by
  simp only [ntileStart] at h1 h2
  by_cases hj : j < N % T
  · rw [min_eq_left (le_of_lt hj)] at h1
    rw [min_eq_left hj] at h2
    have e1 : j * (N / T) + j = j * (N / T + 1) := by ring
    have e2 : (j + 1) * (N / T) + (j + 1) = (j + 1) * (N / T + 1) := by ring
    have hlow : j * (N / T + 1) ≤ i := by omega
    have hhigh : i < (j + 1) * (N / T + 1) := by omega
    have hb : i < N % T * (N / T + 1) :=
      lt_of_lt_of_le hhigh (Nat.mul_le_mul hj (le_refl _))
    have hdiv : i / (N / T + 1) = j := by
      have hle : j ≤ i / (N / T + 1) :=
        (Nat.le_div_iff_mul_le (Nat.succ_pos _)).mpr hlow
      have hlt2 : i / (N / T + 1) < j + 1 :=
        (Nat.div_lt_iff_lt_mul (Nat.succ_pos _)).mpr hhigh
      omega
    simp only [ntileBucket]
    rw [if_pos hb, hdiv]
  · have hrj : N % T ≤ j := le_of_not_lt hj
    rw [min_eq_right hrj] at h1
    rw [min_eq_right (le_trans hrj (Nat.le_succ j))] at h2
    have hq0 : 0 < N / T := by
      rcases Nat.eq_zero_or_pos (N / T) with h0 | h0
      · rw [h0] at h1 h2
        simp only [Nat.mul_zero, Nat.zero_add] at h1 h2
        omega
      · exact h0
    obtain ⟨d, rfl⟩ : ∃ d, j = N % T + d := ⟨j - N % T, by omega⟩
    have e1 : (N % T + d) * (N / T) + N % T =
        N % T * (N / T + 1) + d * (N / T) := by ring
    have e2 : (N % T + d + 1) * (N / T) + N % T =
        N % T * (N / T + 1) + (d + 1) * (N / T) := by ring
    have e3 : (d + 1) * (N / T) = d * (N / T) + N / T := by ring
    have hnb : ¬i < N % T * (N / T + 1) := by omega
    have hmge : d * (N / T) ≤ i - N % T * (N / T + 1) := by omega
    have hmlt : i - N % T * (N / T + 1) < (d + 1) * (N / T) := by omega
    have hdiv : (i - N % T * (N / T + 1)) / (N / T) = d := by
      have hle : d ≤ (i - N % T * (N / T + 1)) / (N / T) :=
        (Nat.le_div_iff_mul_le hq0).mpr hmge
      have hlt2 : (i - N % T * (N / T + 1)) / (N / T) < d + 1 :=
        (Nat.div_lt_iff_lt_mul hq0).mpr hmlt
      omega
    simp only [ntileBucket]
    rw [if_neg hnb, hdiv]

/-- Every position lies inside the span of the bucket assigned to it. -/
theorem interval_of_ntileBucket (T N i : Nat) (_hT : 0 < T) (hi : i < N) :
    ntileStart T N (ntileBucket T N i - 1) ≤ i ∧
    i < ntileStart T N (ntileBucket T N i) := by
  by_cases hb : i < N % T * (N / T + 1)
  · have hjr : i / (N / T + 1) < N % T :=
      (Nat.div_lt_iff_lt_mul (Nat.succ_pos _)).mpr hb
    have hbv : ntileBucket T N i = i / (N / T + 1) + 1 := by
      simp only [ntileBucket]; rw [if_pos hb]
    rw [hbv]
    simp only [Nat.add_sub_cancel, ntileStart,
      min_eq_left (le_of_lt hjr), min_eq_left hjr]
    constructor
    · have h1 : i / (N / T + 1) * (N / T + 1) ≤ i := Nat.div_mul_le_self i _
      have e1 : i / (N / T + 1) * (N / T) + i / (N / T + 1) =
          i / (N / T + 1) * (N / T + 1) := by ring
      omega
    · have h2 : i < (i / (N / T + 1) + 1) * (N / T + 1) :=
        (Nat.div_lt_iff_lt_mul (Nat.succ_pos _)).mp (Nat.lt_succ_self _)
      have e2 : (i / (N / T + 1) + 1) * (N / T) + (i / (N / T + 1) + 1) =
          (i / (N / T + 1) + 1) * (N / T + 1) := by ring
      omega
  · have hq0 : 0 < N / T := by
      rcases Nat.eq_zero_or_pos (N / T) with h0 | h0
      · exfalso
        have hdm := Nat.div_add_mod N T
        rw [h0, Nat.mul_zero] at hdm
        rw [h0] at hb
        omega
      · exact h0
    have hbv : ntileBucket T N i =
        N % T + (i - N % T * (N / T + 1)) / (N / T) + 1 := by
      simp only [ntileBucket]; rw [if_neg hb]
    rw [hbv]
    have hge : N % T * (N / T + 1) ≤ i := le_of_not_lt hb
    have hd1 : (i - N % T * (N / T + 1)) / (N / T) * (N / T) ≤
        i - N % T * (N / T + 1) := Nat.div_mul_le_self _ _
    have hd2 : i - N % T * (N / T + 1) <
        ((i - N % T * (N / T + 1)) / (N / T) + 1) * (N / T) :=
      (Nat.div_lt_iff_lt_mul hq0).mp (Nat.lt_succ_self _)
    simp only [Nat.add_sub_cancel, ntileStart]
    rw [min_eq_right (show N % T ≤
        N % T + (i - N % T * (N / T + 1)) / (N / T) from Nat.le_add_right _ _),
      min_eq_right (show N % T ≤
        N % T + (i - N % T * (N / T + 1)) / (N / T) + 1 from by
          exact le_trans (Nat.le_add_right _ _) (Nat.le_succ _))]
    have e1 : (N % T + (i - N % T * (N / T + 1)) / (N / T)) * (N / T) + N % T =
        N % T * (N / T + 1) +
          (i - N % T * (N / T + 1)) / (N / T) * (N / T) := by ring
    have e2 : (N % T + (i - N % T * (N / T + 1)) / (N / T) + 1) * (N / T) +
          N % T =
        N % T * (N / T + 1) +
          ((i - N % T * (N / T + 1)) / (N / T) + 1) * (N / T) := by ring
    omega

/-- `NTILE` buckets are 1-based. -/
theorem ntileBucket_pos (T N i : Nat) : 1 ≤ ntileBucket T N i := by
  simp only [ntileBucket]; split <;> exact Nat.succ_le_succ (Nat.zero_le _)

/-- `NTILE(T)` never assigns a bucket above `T`. -/
theorem ntileBucket_le (T N i : Nat) (hT : 0 < T) (hi : i < N) :
    ntileBucket T N i ≤ T := by
  by_contra hgt
  have h := (interval_of_ntileBucket T N i hT hi).1
  have hmono := ntileStart_mono T N
    (show T ≤ ntileBucket T N i - 1 by omega)
  rw [ntileStart_top T N hT] at hmono
  omega

/-- Counting over `range N` a predicate that holds exactly on the
interval `[lo, hi)` (with `hi ≤ N`) yields the interval's size. -/
theorem countP_range_interval (p : Nat → Bool) :
    ∀ (N lo hi : Nat), hi ≤ N →
      (∀ i, i < N → (p i = true ↔ lo ≤ i ∧ i < hi)) →
      (List.range N).countP p = hi - lo := by
  intro N
  induction N with
  | zero =>
    intro lo hi h _
    simp only [List.range_zero, List.countP_nil]
    omega
  | succ N ih =>
    intro lo hi h hiff
    rw [List.range_succ, List.countP_append]
    by_cases hN : hi ≤ N
    · have hpN : p N = false := by
        cases hpN' : p N with
        | false => rfl
        | true =>
          have := (hiff N (Nat.lt_succ_self N)).mp hpN'
          omega
      rw [ih lo hi hN (fun i hi2 => hiff i (Nat.lt_succ_of_lt hi2))]
      simp [hpN]
    · have hhi : hi = N + 1 := by omega
      subst hhi
      by_cases hlo : lo ≤ N
      · have hpN : p N = true :=
          (hiff N (Nat.lt_succ_self N)).mpr ⟨hlo, Nat.lt_succ_self N⟩
        have hres : (List.range N).countP p = N - lo := by
          refine ih lo N (le_refl N) ?_
          intro i hi2
          constructor
          · intro hp
            exact ⟨((hiff i (Nat.lt_succ_of_lt hi2)).mp hp).1, hi2⟩
          · intro hx
            exact (hiff i (Nat.lt_succ_of_lt hi2)).mpr ⟨hx.1, by omega⟩
        rw [hres]
        simp [hpN]
        omega
      · have hpN : p N = false := by
          cases hpN' : p N with
          | false => rfl
          | true =>
            have := (hiff N (Nat.lt_succ_self N)).mp hpN'
            omega
        have hres : (List.range N).countP p = 0 := by
          refine (ih lo N (le_refl N) ?_).trans (by omega)
          intro i hi2
          constructor
          · intro hp
            have := (hiff i (Nat.lt_succ_of_lt hi2)).mp hp
            omega
          · intro hx
            exact ((by omega : False)).elim
        rw [hres]
        simp [hpN]
        omega

/-- The bucket sizes of `NTILE(T)` over `N` positions: `N / T + 1` rows
for the first `N % T` buckets, `N / T` rows for the rest. -/
theorem ntile_count_range (T N b : Nat) (hT : 0 < T) (hb : b < T) :
    (List.range N).countP (fun i => decide (ntileBucket T N i = b + 1)) =
      N / T + if b < N % T then 1 else 0 := by
  have hhi : ntileStart T N (b + 1) ≤ N := by
    have := ntileStart_mono T N (show b + 1 ≤ T from hb)
    rwa [ntileStart_top T N hT] at this
  have hiff : ∀ i, i < N →
      ((fun i => decide (ntileBucket T N i = b + 1)) i = true ↔
        ntileStart T N b ≤ i ∧ i < ntileStart T N (b + 1)) := by
    intro i hi
    simp only [decide_eq_true_eq]
    constructor
    · intro hbv
      have h := interval_of_ntileBucket T N i hT hi
      rw [hbv, Nat.add_sub_cancel] at h
      exact h
    · intro hx
      exact ntileBucket_of_interval T N b i hx.1 hx.2
  rw [countP_range_interval (fun i => decide (ntileBucket T N i = b + 1)) N
    (ntileStart T N b) (ntileStart T N (b + 1)) hhi hiff]
  simp only [ntileStart]
  by_cases hbr : b < N % T
  · rw [min_eq_left (le_of_lt hbr), min_eq_left hbr]
    simp only [hbr, if_true]
    generalize N / T = q
    have e1 : (b + 1) * q = b * q + q := by ring
    omega
  · rw [min_eq_right (le_of_not_lt hbr),
      min_eq_right (le_trans (le_of_not_lt hbr) (Nat.le_succ b))]
    simp only [hbr, if_false]
    generalize N / T = q
    generalize N % T = m
    have e1 : (b + 1) * q = b * q + q := by ring
    omega

/-- `countP` of a predicate on first components over a `zip` of lists of
equal length counts on the first list. -/
theorem countP_zip_fst {α β : Type _} (p : α → Bool) :
    ∀ (as : List α) (bs : List β), as.length = bs.length →
      (as.zip bs).countP (fun x => p x.1) = as.countP p := by
  intro as
  induction as with
  | nil => intro bs _; simp
  | cons a as ih =>
    intro bs h
    cases bs with
    | nil => simp at h
    | cons b bs =>
      simp only [List.zip_cons_cons, List.countP_cons]
      rw [ih bs (by simpa using h)]

/-- The relation `ORDER BY trip_distance` is total. -/
instance : IsTotal Trip (fun a b => a.trip_distance ≤ b.trip_distance) :=
  ⟨fun a b => le_total a.trip_distance b.trip_distance⟩

/-- The relation `ORDER BY trip_distance` is transitive. -/
instance : IsTrans Trip (fun a b => a.trip_distance ≤ b.trip_distance) :=
  ⟨fun _ _ _ hab hbc => le_trans hab hbc⟩

/-- The `distance_percentile` column of `test_large_memory_processing`
(`NTILE(100) OVER (ORDER BY trip_distance)`, for a general tile count
`T`): the table is ordered by `trip_distance` ascending and the row at
each position of the ordering is paired with its `NTILE(T)` bucket. -/
def percentile_tile (T : Nat) (rows : List Trip) : List (Trip × Nat) :=
  (List.insertionSort (fun a b => a.trip_distance ≤ b.trip_distance)
      rows).enum.map
    (fun p => (p.2, ntileBucket T rows.length p.1))

/-- Claim C7, amended: `percentile_tile` orders the `N` rows by the
numeric column ascending and assigns every row a bucket index in
`1..T`; the buckets are as equal in size as possible rather than
exactly equal — the first `N mod T` buckets hold `N / T + 1` rows and
the remaining ones hold `N / T` rows (sizes differing by at most
one). -/
theorem ntile_partition (T : Nat) (rows : List Trip) (hT : 0 < T) :
    ((percentile_tile T rows).map Prod.fst).Perm rows ∧
    List.Sorted (fun a b : Trip => a.trip_distance ≤ b.trip_distance)
      ((percentile_tile T rows).map Prod.fst) ∧
    (∀ p ∈ percentile_tile T rows, 1 ≤ p.2 ∧ p.2 ≤ T) ∧
    (∀ b, b < T →
      (percentile_tile T rows).countP (fun p => decide (p.2 = b + 1)) =
        rows.length / T + if b < rows.length % T then 1 else 0) := by
  have hlen : (List.insertionSort
      (fun a b : Trip => a.trip_distance ≤ b.trip_distance) rows).length =
      rows.length := List.length_insertionSort _ rows
  have hfst : (percentile_tile T rows).map Prod.fst =
      List.insertionSort (fun a b : Trip => a.trip_distance ≤ b.trip_distance)
        rows := by
    simp only [percentile_tile, List.map_map]
    exact List.enum_map_snd _
  refine ⟨?_, ?_, ?_, ?_⟩
  · rw [hfst]; exact List.perm_insertionSort _ rows
  · rw [hfst]; exact List.sorted_insertionSort _ rows
  · intro p hp
    simp only [percentile_tile, List.mem_map] at hp
    obtain ⟨x, hx, rfl⟩ := hp
    rw [List.enum_eq_zip_range] at hx
    obtain ⟨i, t⟩ := x
    have hi : i < rows.length := by
      have := (List.of_mem_zip hx).1
      rw [List.mem_range, hlen] at this
      exact this
    exact ⟨ntileBucket_pos T rows.length i,
      ntileBucket_le T rows.length i hT hi⟩
  · intro b hb
    have h1 : (percentile_tile T rows).countP (fun p => decide (p.2 = b + 1)) =
        ((List.range (List.insertionSort
            (fun a b : Trip => a.trip_distance ≤ b.trip_distance)
            rows).length).zip
          (List.insertionSort
            (fun a b : Trip => a.trip_distance ≤ b.trip_distance)
            rows)).countP
          (fun x => decide (ntileBucket T rows.length x.1 = b + 1)) := by
      simp only [percentile_tile, List.countP_map, List.enum_eq_zip_range]
      rfl
    rw [h1, countP_zip_fst
        (fun i => decide (ntileBucket T rows.length i = b + 1)) _ _
        (by rw [List.length_range]), hlen]
    exact ntile_count_range T rows.length b hT hb

/-- Witness for C7's amended theorem: on the 3-row table with `T = 2`,
the result is a permutation of the table, bucket 1 holds 2 rows and
bucket 2 holds 1 row. -/
theorem ntile_partition_witness :
    ((percentile_tile 2 trips3).map Prod.fst).Perm trips3 ∧
    (percentile_tile 2 trips3).countP (fun p => decide (p.2 = 1)) = 2 ∧
    (percentile_tile 2 trips3).countP (fun p => decide (p.2 = 2)) = 1 := by
  have h := ntile_partition 2 trips3 (by decide)
  refine ⟨h.1, ?_, ?_⟩
  · have hc := h.2.2.2 0 (by decide)
    simpa [trips3] using hc
  · have hc := h.2.2.2 1 (by decide)
    simpa [trips3] using hc

/-- Counterexample to C7 as stated: with `N = 3` rows and `T = 2`, the
two buckets are not of equal size — `NTILE(2)` puts 2 rows in bucket 1
and 1 row in bucket 2. -/
theorem ntile_unequal_counterexample :
    (percentile_tile 2 trips3).countP (fun p => decide (p.2 = 1)) = 2 ∧
    (percentile_tile 2 trips3).countP (fun p => decide (p.2 = 2)) = 1 ∧
    (2 : Nat) ≠ 1 := by decide
